import Mathlib

set_option maxHeartbeats 1000000

/-!
Shallow embedding of the seloger-mass-products-scraper core
(src/extractors/html_cleaner.py, src/extractors/seloger_parser.py,
src/runner.py).  Text is modelled as `List Char`; Python `None`-able
values as `Option`; machine integers do not occur (Python ints are
unbounded, modelled by `Int`/`Nat`).
-/

/-- Text, modelled as a list of characters. -/
abbrev Str := List Char

/-! ### Character classes

Python's regex `\s` and `str.isspace`/`int()` whitespace stripping all use
the same predicate (Py_UNICODE_ISSPACE); we model that set of code points.
Python's `\d` also matches non-ASCII decimal digits; the documents the
scraper handles and all claims use ASCII digits, which we model with
`isDig`.
-/

/-- Python whitespace (regex `\s` / `str.isspace`): the Unicode whitespace
code points recognised by CPython. -/
def isPySpace (c : Char) : Bool :=
  c.toNat == 0x20 || (0x09 ≤ c.toNat && c.toNat ≤ 0x0d) ||
  (0x1c ≤ c.toNat && c.toNat ≤ 0x1f) || c.toNat == 0x85 || c.toNat == 0xa0 ||
  c.toNat == 0x1680 || (0x2000 ≤ c.toNat && c.toNat ≤ 0x200a) ||
  c.toNat == 0x2028 || c.toNat == 0x2029 || c.toNat == 0x202f ||
  c.toNat == 0x205f || c.toNat == 0x3000

/-- An ASCII decimal digit (the `\d` class as it occurs in the scraped
documents), phrased over `Char.toNat` so that arithmetic automation can
reason about it. -/
def isDig (c : Char) : Bool :=
  48 ≤ c.toNat && c.toNat ≤ 57

/-- A character of the regex class `[\d\s]`. -/
def isDigitOrSpace (c : Char) : Bool :=
  isDig c || isPySpace c

/-! ### Basic string helpers -/

/-- Test whether `needle` is an initial segment of `hay`. -/
def leadsWith : Str → Str → Bool
  | [], _ => true
  | _ :: _, [] => false
  | a :: as, b :: bs => a == b && leadsWith as bs

/-- Test whether `needle` occurs as a contiguous substring of `hay`
(Python `needle in hay`, `re.search` of a literal). -/
def containsSub (needle : Str) : Str → Bool
  | [] => needle.isEmpty
  | c :: rest => leadsWith needle (c :: rest) || containsSub needle rest

/-- ASCII lower-casing, used to model case-insensitive regex literals. -/
def lowerAscii (c : Char) : Char :=
  if 'A' ≤ c && c ≤ 'Z' then Char.ofNat (c.toNat + 32) else c

/-- Match a literal at the head of the input; return the rest on success. -/
def dropLit : Str → Str → Option Str
  | [], cs => some cs
  | _ :: _, [] => none
  | l :: ls, c :: cs => if c = l then dropLit ls cs else none

/-- Match a literal case-insensitively at the head of the input. -/
def dropLitCI : Str → Str → Option Str
  | [], cs => some cs
  | _ :: _, [] => none
  | l :: ls, c :: cs => if lowerAscii c = lowerAscii l then dropLitCI ls cs else none

/-! ### html_cleaner.clean_text

`clean_text` substitutes every maximal run of `\s+` by a single ASCII
space (`_WHITESPACE_RE.sub(" ", text)`) and then strips leading and
trailing whitespace (`str.strip()`).
-/

/-- Replace each maximal run of Python whitespace by one ASCII space
(`re.sub(r"\s+", " ", text)`). -/
def collapseWs : Str → Str
  | [] => []
  | [c] => if isPySpace c then [' '] else [c]
  | c1 :: c2 :: rest =>
    if isPySpace c1 && isPySpace c2 then collapseWs (c2 :: rest)
    else (if isPySpace c1 then ' ' else c1) :: collapseWs (c2 :: rest)

/-- Remove trailing Python whitespace. -/
def trimRight : Str → Str
  | [] => []
  | c :: rest =>
    let r := trimRight rest
    if r = [] && isPySpace c then [] else c :: r

/-- Python `str.strip()`: remove leading and trailing whitespace. -/
def pyStrip (cs : Str) : Str :=
  trimRight (cs.dropWhile isPySpace)

/-- html_cleaner.clean_text on an actual string. -/
def clean_text (cs : Str) : Str :=
  pyStrip (collapseWs cs)

/-- html_cleaner.clean_text including the `value is None` branch. -/
def clean_text_opt : Option Str → Str
  | none => []
  | some cs => clean_text cs

/-! ### html_cleaner.extract_int

`_INT_RE = (-?\d[\d\s]*)`; `search` takes the leftmost match, the match is
greedy, then `" "` and `" "` are removed and the result is given to
Python `int()`.
-/

/-- Numeric value of a digit string. -/
def digitsToNat (cs : Str) : Nat :=
  cs.foldl (fun n c => 10 * n + (c.toNat - '0'.toNat)) 0

/-- Parse a non-empty all-digit string, else fail. -/
def digitsVal (cs : Str) : Option Nat :=
  if cs = [] then none
  else if cs.all isDig then some (digitsToNat cs) else none

/-- Python `int(s)` on a string: strips surrounding whitespace, then an
optional sign followed by digits only.  (Underscore grouping cannot occur
in the inputs produced by `extract_int`.) -/
def pyInt (cs : Str) : Option Int :=
  match pyStrip cs with
  | c :: rest =>
    if c = '-' then (digitsVal rest).map (fun n : Nat => -(n : Int))
    else if c = '+' then (digitsVal rest).map (fun n : Nat => (n : Int))
    else (digitsVal (c :: rest)).map (fun n : Nat => (n : Int))
  | [] => none

/-- Match the `\d[\d\s]*` part (greedy) at the head of the input,
returning the matched text. -/
def intMatchDigits : Str → Option Str
  | [] => none
  | c :: rest =>
    if isDig c then some (c :: rest.takeWhile isDigitOrSpace) else none

/-- Match `-?\d[\d\s]*` (greedy) at the head of the input: an optional
minus sign directly followed by the digit-led run. -/
def intMatchAt : Str → Option Str
  | [] => none
  | c :: rest =>
    if c = '-' then (intMatchDigits rest).map (fun m => c :: m)
    else intMatchDigits (c :: rest)

/-- Leftmost match of `_INT_RE` (`re.search`). -/
def intSearch : Str → Option Str
  | [] => none
  | c :: rest =>
    match intMatchAt (c :: rest) with
    | some m => some m
    | none => intSearch rest

/-- html_cleaner.extract_int. -/
def extract_int (cs : Str) : Option Int :=
  if cs = [] then none
  else
    match intSearch cs with
    | none => none
    | some m => pyInt (m.filter (fun c => c ≠ ' ' && c.val ≠ 0xa0))

/-! ### html_cleaner.extract_float

`_FLOAT_RE = (-?\d+(?:[.,]\d+)?)`; the matched text has `","` replaced by
`"."` and is given to Python `float()`.  We model the value exactly over
`ℚ`; Python rounds it to the nearest double, which is exact for the
decimal fractions appearing in the claims.
-/

/-- Match the unsigned part `\d+(?:[.,]\d+)?` at the head of the input,
returning the integer digits and the (possibly empty) fraction digits. -/
def floatNum (cs : Str) : Option (Str × Str) :=
  match cs.takeWhile isDig with
  | [] => none
  | ds =>
    match cs.dropWhile isDig with
    | sep :: r2 =>
      if (sep = '.' || sep = ',') && r2.takeWhile isDig ≠ [] then
        some (ds, r2.takeWhile isDig)
      else some (ds, [])
    | [] => some (ds, [])

/-- Match `_FLOAT_RE` at the head of the input, returning the sign and
the digit groups. -/
def floatMatchAt : Str → Option (Bool × Str × Str)
  | [] => none
  | c :: rest =>
    if c = '-' then (floatNum rest).map (fun p => (true, p))
    else (floatNum (c :: rest)).map (fun p => (false, p))

/-- Leftmost match of `_FLOAT_RE` (`re.search`). -/
def floatSearch : Str → Option (Bool × Str × Str)
  | [] => none
  | c :: rest =>
    match floatMatchAt (c :: rest) with
    | some q => some q
    | none => floatSearch rest

/-- Value of a matched decimal literal, after the `","` to `"."`
replacement: what Python `float()` computes of it (exactly, over `ℚ`). -/
def ratOfParts : Bool × Str × Str → ℚ
  | (neg, ds, fs) =>
    let v : ℚ := (digitsToNat ds : ℚ) + (digitsToNat fs : ℚ) / (10 : ℚ) ^ fs.length
    if neg then -v else v

/-- html_cleaner.extract_float. -/
def extract_float (cs : Str) : Option ℚ :=
  if cs = [] then none else (floatSearch cs).map ratOfParts

/-! ### Regex searches used by seloger_parser

Each `soup.find(string=re.compile(...))` call returns the first text node
whose content matches the given pattern somewhere; we model the match
tests for the three patterns the parser uses.
-/

/-- Tail of a `\d[\d\s]*€` match: scan digit/whitespace characters until
a `€` is reached. -/
def priceTail : Str → Bool
  | [] => false
  | c :: rest =>
    if c = '€' then true
    else if isDigitOrSpace c then priceTail rest else false

/-- Match `\d[\d\s]*€` at the head of the input. -/
def priceAt : Str → Bool
  | [] => false
  | c :: rest => isDig c && priceTail rest

/-- `re.search(r"\d[\d\s]*€", s)` succeeds. -/
def priceSearch : Str → Bool
  | [] => false
  | c :: rest => priceAt (c :: rest) || priceSearch rest

/-- Match `\d[\d\s]{6,}` at the head of the input: a digit followed by at
least six digit-or-whitespace characters. -/
def digitRun7 : Str → Bool
  | [] => false
  | c :: rest =>
    isDig c && decide (6 ≤ rest.length) && (rest.take 6).all isDigitOrSpace

/-- Match `\+?\d[\d\s]{6,}` at the head of the input. -/
def phoneAt (cs : Str) : Bool :=
  match cs with
  | '+' :: rest => digitRun7 rest
  | _ => digitRun7 cs

/-- `re.search(r"\+?\d[\d\s]{6,}", s)` succeeds. -/
def phoneSearch : Str → Bool
  | [] => false
  | c :: rest => phoneAt (c :: rest) || phoneSearch rest

/-- Match `Classe\s+[A-G]` (with `re.I`) at the head of the input. -/
def classeAt (cs : Str) : Bool :=
  match dropLitCI "Classe".data cs with
  | none => false
  | some r =>
    match r with
    | [] => false
    | c :: rest =>
      isPySpace c &&
        (match (c :: rest).dropWhile isPySpace with
         | d :: _ => 'a' ≤ lowerAscii d && lowerAscii d ≤ 'g'
         | [] => false)

/-- `re.search(r"Classe\s+[A-G]", s, re.I)` succeeds. -/
def classeSearch : Str → Bool
  | [] => false
  | c :: rest => classeAt (c :: rest) || classeSearch rest

/-! ### The construction-year regex

`re.search(r"(Construction\s+en\s+)?(19|20)\d{2}", html)` followed by
`group(0).split()[-1]`.  `re.search` returns the leftmost match; at each
position the greedy optional prefix is attempted first.
-/

/-- Match `(19|20)\d{2}` at the head of the input, returning the four
matched characters. -/
def matchYearAt : Str → Option Str
  | c1 :: c2 :: c3 :: c4 :: _ =>
    if ((c1 = '1' && c2 = '9') || (c1 = '2' && c2 = '0')) && isDig c3 && isDig c4
    then some [c1, c2, c3, c4] else none
  | _ => none

/-- Match `\s+` at the head of the input (maximal munch, which is exact
here because the following regex atoms reject whitespace); return the
matched run and the rest. -/
def ws1 : Str → Option (Str × Str)
  | [] => none
  | c :: rest =>
    if isPySpace c then some (c :: rest.takeWhile isPySpace, rest.dropWhile isPySpace)
    else none

/-- Match the greedy optional prefix plus year,
`Construction\s+en\s+(19|20)\d{2}`, at the head of the input; return
`group(0)` together with the year token it ends in. -/
def prefixedAt (cs : Str) : Option (Str × Str) := do
  let r1 ← dropLit "Construction".data cs
  let (w1, r2) ← ws1 r1
  let r3 ← dropLit "en".data r2
  let (w2, r4) ← ws1 r3
  let y ← matchYearAt r4
  pure ("Construction".data ++ w1 ++ "en".data ++ w2 ++ y, y)

/-- Match the whole pattern `(Construction\s+en\s+)?(19|20)\d{2}` at the
head of the input (prefixed try first, as the greedy `?` does), returning
`group(0)`. -/
def fullMatchAt (cs : Str) : Option Str :=
  match prefixedAt cs with
  | some (m, _) => some m
  | none => matchYearAt cs

/-- Leftmost match of the construction-year pattern, as `group(0)`. -/
def reYearSearch : Str → Option Str
  | [] => none
  | c :: rest =>
    match fullMatchAt (c :: rest) with
    | some m => some m
    | none => reYearSearch rest

/-- Python `str.split()` with no separator: split on whitespace runs,
dropping empty pieces. -/
def pySplitWs : Str → List Str
  | [] => []
  | c :: rest =>
    if isPySpace c then pySplitWs rest
    else
      match rest with
      | [] => [[c]]
      | r :: _ =>
        if isPySpace r then [c] :: pySplitWs rest
        else
          match pySplitWs rest with
          | w :: ws => (c :: w) :: ws
          | [] => [[c]]

/-- Last whitespace-separated token (`s.split()[-1]`, defaulting to the
empty string, which cannot occur on regex matches of the year pattern). -/
def lastTokenD (cs : Str) : Str :=
  ((pySplitWs cs).getLast?).getD []

/-- The `construction_date` computation of `_parse_listing_page`:
`group(0).split()[-1]` of the leftmost year-pattern match. -/
def constructionDateOf (cs : Str) : Option Str :=
  (reYearSearch cs).map lastTokenD

/-- First `(19|20)\d{2}` token of the text (a plain scan, used to state
what the code actually returns). -/
def firstYearToken : Str → Option Str
  | [] => none
  | c :: rest =>
    match matchYearAt (c :: rest) with
    | some y => some y
    | none => firstYearToken rest

/-- Modelled from the spec: the LAST `(19|20)\d{2}` token of the text
("the last 4-digit year-like token (range 1900-2099) found anywhere in
the raw document text"), used to compare the spec's wording against the
code. -/
def lastYearToken : Str → Option Str
  | [] => none
  | c :: rest =>
    match lastYearToken rest with
    | some y => some y
    | none => matchYearAt (c :: rest)

/-! ### Data model

BeautifulSoup documents are modelled by structures recording the results
of exactly the element queries the parser performs; text nodes that are
searched with `soup.find(string=regex)` are kept as explicit lists of
strings, so the regex tests above apply to them concretely.
-/

/-- One `img` element: its `data-src` and `src` attributes. -/
structure Img where
  dataSrc : Option Str
  src : Option Str
deriving DecidableEq

/-- Python `a or b` for optional strings (an empty string is falsy). -/
def pyOrStr (a b : Option Str) : Option Str :=
  match a with
  | some s => if s = [] then b else some s
  | none => b

/-- A listing card inside a search-results page, as observed by
`_parse_search_results`:
* `titleEl`: text of `select_one("h2, h3, h4, a[data-test='sl-card-title']")`;
* `hrefEl`: `href` attribute of `find("a", href=True)`;
* `locEl`: text of the location element (`data-test` attribute matching
  `.*location.*`, else a `p` with a `Location`-like class);
* `strings`: the card's text nodes in document order
  (for `find(string=re.compile(r"\d[\d\s]*€"))`);
* `imgs`: the card's `img` elements in document order. -/
structure Card where
  titleEl : Option Str
  hrefEl : Option Str
  locEl : Option Str
  strings : List Str
  imgs : List Img
deriving DecidableEq

/-- The ListingSummary dataclass. -/
structure ListingSummary where
  title : Str
  url : Str
  location : Option Str := none
  price : Option Int := none
  photos : List Str := []
deriving DecidableEq

/-- The module-level site origin used to absolutise relative links. -/
def siteOrigin : Str := "https://www.seloger.com".data

/-- The photo-collection loop shared by the search-card and detail-page
parsers: preferred source attribute (`data-src` before `src`), kept only
if it mentions `seloger.com` and is not already present. -/
def collectPhotos (seed : List Str) (imgs : List Img) : List Str :=
  imgs.foldl
    (fun acc img =>
      match pyOrStr img.dataSrc img.src with
      | some src =>
        if src ≠ [] && containsSub "seloger.com".data src && ¬ acc.contains src
        then acc ++ [src] else acc
      | none => acc)
    seed

/-- The per-card title: the first heading-like element's cleaned text,
else the literal default. -/
def cardTitle (card : Card) : Str :=
  match card.titleEl with
  | some t => clean_text t
  | none => "Property listing".data

/-- The per-card url: the first link's `href` (empty when there is
none), with a leading-slash relative path absolutised against the site
origin. -/
def cardUrl (card : Card) : Str :=
  let url := match card.hrefEl with
    | some h => h
    | none => []
  if url ≠ [] && leadsWith "/".data url then siteOrigin ++ url else url

/-- The per-card price: `extract_int` of the first (truthy) text node
matching the currency pattern. -/
def cardPrice (card : Card) : Option Int :=
  match card.strings.find? priceSearch with
  | some s => if s ≠ [] then extract_int s else none
  | none => none

/-- Per-card body of the `for card in cards` loop of
`_parse_search_results`.  All modelled operations are total, so the
`except` branch of the source (which skips the card) is unreachable in
the model; a card is skipped exactly when it yields no URL. -/
def process_card (card : Card) : Option ListingSummary :=
  if cardUrl card = [] then none
  else some { title := cardTitle card, url := cardUrl card,
              location := (card.locEl).map clean_text,
              price := cardPrice card,
              photos := collectPhotos [] card.imgs }

/-- The `for card in cards` loop of `_parse_search_results`. -/
def process_cards : List Card → List ListingSummary
  | [] => []
  | c :: rest =>
    match process_card c with
    | some s => s :: process_cards rest
    | none => process_cards rest

/-- A search-results page, as observed through the three card selectors
`div.c-pa-list`, `div.ListingCell`, `article[data-test='sl-card-result']`:
each field is that selector's result set. -/
structure SearchDoc where
  s1 : List Card
  s2 : List Card
  s3 : List Card
deriving DecidableEq

/-- The selector loop of `_parse_search_results`: `cards` is the result
set of the first selector with at least one match (the loop `break`s),
and the final value (possibly empty) of the last selector otherwise. -/
def selectCards (d : SearchDoc) : List Card :=
  if d.s1 ≠ [] then d.s1
  else if d.s2 ≠ [] then d.s2
  else d.s3

/-- `_parse_search_results`: choose a card set, return `[]` (after a
warning log) when every selector missed, else parse the cards. -/
def parse_search_results (d : SearchDoc) : List ListingSummary :=
  let cards := selectCards d
  if cards = [] then []
  else process_cards cards

/-! ### Detail pages -/

/-- An agency card container, as observed by `_parse_listing_page`:
`heading` is the text of `find(["h2", "h3"])`, `strings` are its text
nodes (searched with the phone regex), `mailHref` the `href` of
`find("a", href=re.compile("mailto:", re.I))`. -/
structure Agency where
  heading : Option Str
  strings : List Str
  mailHref : Option Str
deriving DecidableEq

/-- A listing detail page, as observed by `_parse_listing_page`:
* `raw`: the raw HTML text (the construction-year regex runs on it);
* `h1`: text of `find("h1")`;
* `descA`: text of the `data-test='sl-price-description'` element;
  `descB`/`descC`/`descD`: results of the three description selectors;
* `strings`: the page's text nodes in document order (searched with the
  price and energy-class regexes);
* `locA`/`locB`: the two location lookups;
* `dpeParent`: parent text of the first text node matching the DPE label
  regex, when that node exists and has a parent;
* `agencyA`/`agencyB`/`agencyC`: results of the three agency selectors;
* `telHref`/`mailHref`: `href` of the first page-wide `tel:` / `mailto:`
  link;
* `transportParent`: `parent.get_text(" ", strip=True)` of the first text
  node matching the transport regex, when it exists and has a parent;
* `imgs`: the page's `img` elements in document order. -/
structure DetailDoc where
  raw : Str
  h1 : Option Str
  descA : Option Str
  descB : Option Str
  descC : Option Str
  descD : Option Str
  strings : List Str
  locA : Option Str
  locB : Option Str
  dpeParent : Option Str
  agencyA : Option Agency
  agencyB : Option Agency
  agencyC : Option Agency
  telHref : Option Str
  mailHref : Option Str
  transportParent : Option Str
  imgs : List Img
deriving DecidableEq

/-- A value of the output record mapping. -/
inductive Value where
  | text (s : Str)
  | optInt (n : Option Int)
  | optText (s : Option Str)
  | texts (l : List Str)
deriving DecidableEq

/-- The thirteen keys of every produced record, in source order. -/
def schemaKeys : List String :=
  ["title", "description", "price", "location", "photos", "energy_info",
   "construction_date", "publisher_name", "publisher_email",
   "publisher_phone", "nearby_transport", "url", "scraped_at"]

/-- First `some` among the candidates (a `find`-or-`select_one` fallback
chain that stops at the first hit). -/
def firstSome : List (Option α) → Option α
  | [] => none
  | some a :: _ => some a
  | none :: rest => firstSome rest

/-- Python `value.split(":", 1)[-1]`: everything after the first colon,
or the whole string when there is none. -/
def afterFirstColon : Str → Option Str
  | [] => none
  | c :: rest => if c = ':' then some rest else afterFirstColon rest

/-- The `href.split(":", 1)[-1]` idiom used for `tel:`/`mailto:` links. -/
def splitColonTail (cs : Str) : Str :=
  (afterFirstColon cs).getD cs

/-- Python falsiness of an optional string (`None` or empty). -/
def pyFalsy : Option Str → Bool
  | none => true
  | some s => s = []

/-- `re.split(r"[•\n]", text)`: split on bullet or newline characters,
keeping empty pieces. -/
def splitBullets : Str → List Str
  | [] => [[]]
  | c :: rest =>
    if c = '•' || c = '\n' then [] :: splitBullets rest
    else
      match splitBullets rest with
      | p :: ps => (c :: p) :: ps
      | [] => [[c]]

/-- The title resolution of `_parse_listing_page`: the page's `h1`
cleaned, falling back (also for a blank heading, via `or`) to the
summary title. -/
def titleOf (d : DetailDoc) (summary : ListingSummary) : Str :=
  match d.h1 with
  | some t => if clean_text t ≠ [] then clean_text t else summary.title
  | none => summary.title

/-- The description resolution: the `data-test` lookup, else the first
hit of the three selector variants, cleaned; else empty. -/
def descriptionOf (d : DetailDoc) : Str :=
  match firstSome [d.descA, d.descB, d.descC, d.descD] with
  | some t => clean_text t
  | none => []

/-- The price resolution: `extract_int` of the first text node matching
the currency pattern (overwriting the summary price even when extraction
fails), else the summary price. -/
def priceOf (d : DetailDoc) (summary : ListingSummary) : Option Int :=
  match d.strings.find? priceSearch with
  | some s => if s ≠ [] then extract_int s else summary.price
  | none => summary.price

/-- The location resolution: the `data-test` lookup, else the styled
paragraph, cleaned; else the summary location. -/
def locationOf (d : DetailDoc) (summary : ListingSummary) : Option Str :=
  match firstSome [d.locA, d.locB] with
  | some t => some (clean_text t)
  | none => summary.location

/-- The energy-info resolution: the first text node matching the
energy-class pattern, else the DPE label's parent text; else nothing. -/
def energyInfoOf (d : DetailDoc) : Option Str :=
  match d.strings.find? classeSearch with
  | some s => if s ≠ [] then some (clean_text s) else none
  | none => (d.dpeParent).map clean_text

/-- The agency container: the first of the three selectors that hits. -/
def agencyOf (d : DetailDoc) : Option Agency :=
  firstSome [d.agencyA, d.agencyB, d.agencyC]

/-- Publisher name: a heading inside the agency container, cleaned. -/
def publisherNameOf (d : DetailDoc) : Option Str :=
  match agencyOf d with
  | some a => (a.heading).map clean_text
  | none => none

/-- Publisher phone: the first agency text node matching the phone
pattern, cleaned; when falsy, the page-wide `tel:` link's target. -/
def publisherPhoneOf (d : DetailDoc) : Option Str :=
  let base := match agencyOf d with
    | some a => (a.strings.find? phoneSearch).map clean_text
    | none => none
  if pyFalsy base then
    match d.telHref with
    | some h => some (splitColonTail h)
    | none => base
  else base

/-- Publisher email: the agency `mailto:` link's target; when falsy, the
page-wide `mailto:` link's target. -/
def publisherEmailOf (d : DetailDoc) : Option Str :=
  let base := match agencyOf d with
    | some a => (a.mailHref).map splitColonTail
    | none => none
  if pyFalsy base then
    match d.mailHref with
    | some h => some (splitColonTail h)
    | none => base
  else base

/-- Nearby transport: the transport text node's parent text, split on
bullet/newline, cleaned, kept when mentioning metro or bus. -/
def nearbyTransportOf (d : DetailDoc) : List Str :=
  match d.transportParent with
  | some t =>
    (splitBullets t).foldl
      (fun acc p =>
        let p := clean_text p
        if p ≠ [] && (containsSub "métro".data (p.map lowerAscii) ||
            containsSub "bus".data (p.map lowerAscii))
        then acc ++ [p] else acc)
      []
  | none => []

/-- `_parse_listing_page`.  The `scraped_at` timestamp
(`datetime.utcnow().isoformat(timespec="seconds")`) is passed in as `ts`;
the record stores `ts ++ "Z"`. -/
def parse_listing_page (ts : Str) (d : DetailDoc) (summary : ListingSummary) :
    List (String × Value) :=
  [("title", .text (titleOf d summary)),
   ("description", .text (descriptionOf d)),
   ("price", .optInt (priceOf d summary)),
   ("location", .optText (locationOf d summary)),
   ("photos", .texts (collectPhotos summary.photos d.imgs)),
   ("energy_info", .optText (energyInfoOf d)),
   ("construction_date", .optText (constructionDateOf d.raw)),
   ("publisher_name", .optText (publisherNameOf d)),
   ("publisher_email", .optText (publisherEmailOf d)),
   ("publisher_phone", .optText (publisherPhoneOf d)),
   ("nearby_transport", .texts (nearbyTransportOf d)),
   ("url", .text summary.url),
   ("scraped_at", .text (ts ++ "Z".data))]

/-- `_summary_to_dict`, the shallow-mode record. -/
def summary_to_dict (ts : Str) (summary : ListingSummary) :
    List (String × Value) :=
  [("title", .text summary.title),
   ("description", .text []),
   ("price", .optInt summary.price),
   ("location", .optText summary.location),
   ("photos", .texts summary.photos),
   ("energy_info", .optText none),
   ("construction_date", .optText none),
   ("publisher_name", .optText none),
   ("publisher_email", .optText none),
   ("publisher_phone", .optText none),
   ("nearby_transport", .texts []),
   ("url", .text summary.url),
   ("scraped_at", .text (ts ++ "Z".data))]

/-! ### Enrichment orchestrator

`_deep_scrape_summaries` submits one `worker` task per summary to a
thread pool and appends each truthy result in completion order.  The
thread pool is modelled sequentially (one fold in submission order); the
properties claimed of it — one fetch per summary, per-item failure
isolation, a result for every non-failing summary, termination — do not
depend on completion order.  `fetch` maps a URL to the parsed detail
page, or `none` when the fetch or parse raises; the pair's second
component is the log of fetch calls. -/
def deepStep (fetch : Str → Option DetailDoc) (ts : Str)
    (acc : List (List (String × Value)) × List Str) (s : ListingSummary) :
    List (List (String × Value)) × List Str :=
  let log := acc.2 ++ [s.url]
  match fetch s.url with
  | some d =>
    let result := parse_listing_page ts d s
    (if result ≠ [] then acc.1 ++ [result] else acc.1, log)
  | none => (acc.1, log)

def deep_scrape_summaries (fetch : Str → Option DetailDoc) (ts : Str)
    (summaries : List ListingSummary) :
    List (List (String × Value)) × List Str :=
  summaries.foldl (deepStep fetch ts) ([], [])

/-! ### Delta engine (runner.compute_delta) -/

/-- A record as seen by the delta engine: an opaque payload plus the
result of `item.get("url")`. -/
structure DRec where
  url : Option String
  payload : Nat
deriving DecidableEq

/-- The key under which the delta engine indexes a record:
`item.get("url")` when truthy. -/
def keyOf (r : DRec) : Option String :=
  match r.url with
  | some s => if s = "" then none else some s
  | none => none

/-- Does the index hold an entry for key `u`? -/
def hasKey : List (String × DRec) → String → Bool
  | [], _ => false
  | p :: rest, u => p.1 == u || hasKey rest u

/-- Value stored for key `u` (`index[u]`). -/
def lookupIdx : List (String × DRec) → String → Option DRec
  | [], _ => none
  | p :: rest, u => if p.1 = u then some p.2 else lookupIdx rest u

/-- Python dict insertion: overwrite an existing slot in place, else
append. -/
def insertLWW (idx : List (String × DRec)) (u : String) (r : DRec) :
    List (String × DRec) :=
  if hasKey idx u then idx.map (fun p => if p.1 = u then (u, r) else p)
  else idx ++ [(u, r)]

/-- `{item.get("url"): item for item in items if item.get("url")}`. -/
def indexByUrl (items : List DRec) : List (String × DRec) :=
  items.foldl
    (fun idx item =>
      match keyOf item with
      | some u => insertLWW idx u item
      | none => idx)
    []

/-- The last record of `items` whose (truthy) url equals `u` — the
"later occurrence wins" description of the index. -/
def lastWithUrl : List DRec → String → Option DRec
  | [], _ => none
  | r :: rest, u =>
    match lastWithUrl rest u with
    | some x => some x
    | none => if keyOf r = some u then some r else none

/-- The result of `compute_delta`. -/
structure DeltaResult where
  new : List DRec
  removed : List DRec
  current : List DRec
deriving DecidableEq

/-- `runner.compute_delta`.  Python lists `new`/`removed` by iterating
over the unordered sets `curr_urls - prev_urls` / `prev_urls - curr_urls`;
the model uses index order as the deterministic representative, and the
claim is settled at the level of membership. -/
def compute_delta (previous current : List DRec) : DeltaResult :=
  let prevIdx := indexByUrl previous
  let currIdx := indexByUrl current
  { new := (currIdx.filter (fun p => !hasKey prevIdx p.1)).map (fun p => p.2),
    removed := (prevIdx.filter (fun p => !hasKey currIdx p.1)).map (fun p => p.2),
    current := current }

/-! ### Auxiliary predicates and concrete fixtures used by the theorems -/

/-- Every whitespace character of the string is a plain ASCII space. -/
def spacesBlank (cs : Str) : Bool :=
  cs.all (fun c => !isPySpace c || c == ' ')

/-- No two adjacent whitespace characters. -/
def noDouble : Str → Bool
  | [] => true
  | [_] => true
  | a :: b :: rest => !(isPySpace a && isPySpace b) && noDouble (b :: rest)

/-- The first character, if any, is not whitespace. -/
def headNotSpace : Str → Bool
  | [] => true
  | c :: _ => !isPySpace c

/-- The last character, if any, is not whitespace. -/
def lastNotSpace : Str → Bool
  | [] => true
  | [c] => !isPySpace c
  | _ :: c :: rest => lastNotSpace (c :: rest)

/-- C3 counterexample document: two distinct year-like tokens. -/
def exYearDoc : Str := "built in 1950, renovated 2005".data

/-- Keys of an index are pairwise distinct. -/
def keysNodup (idx : List (String × DRec)) : Prop :=
  (idx.map (fun p => p.1)).Nodup

/-- C2 document and fetch fixture: five summaries, the third one's fetch
fails. -/
def exDoc : DetailDoc :=
  ⟨[], none, none, none, none, none, [], none, none, none, none, none,
   none, none, none, none, []⟩

def exSummaries : List ListingSummary :=
  [⟨"t1".data, "u1".data, none, none, []⟩,
   ⟨"t2".data, "u2".data, none, none, []⟩,
   ⟨"t3".data, "u3".data, none, none, []⟩,
   ⟨"t4".data, "u4".data, none, none, []⟩,
   ⟨"t5".data, "u5".data, none, none, []⟩]

def exFetch (u : Str) : Option DetailDoc :=
  if u = "u3".data then none else some exDoc

/-- A card with no extractable link, and a well-formed sibling card. -/
def exCardNoHref : Card := ⟨some "A nice flat".data, none, none, [], []⟩

def exCardOk : Card :=
  ⟨some "Another flat".data, some "/annonce/1".data, none, [], []⟩

/-- Modelled from the spec: a URL is absolute when it carries a scheme
separator (the spec's invariant "url non-empty and absolute"). -/
def isAbsoluteUrl (u : Str) : Bool :=
  containsSub "://".data u

/-- A card whose link is relative but does not begin with a slash. -/
def exCardRel : Card := ⟨none, some "foo.html".data, none, [], []⟩

/-- A card whose price text carries a leading minus sign. -/
def exCardNeg : Card := ⟨none, some "/x".data, none, ["-5 €".data], []⟩

/-- A card with an ordinary positive price text. -/
def exCardPos : Card := ⟨none, some "/y".data, none, ["1 234 €".data], []⟩

/-- A fixture summary used by the detail-extractor claims. -/
def exSum : ListingSummary :=
  ⟨"sum title".data, "https://www.seloger.com/a".data, some "Paris".data,
   some 100, []⟩

/-- A detail page with no agency container but a page-wide `tel:` link. -/
def exDocTel : DetailDoc :=
  ⟨[], none, none, none, none, none, [], none, none, none, none, none,
   none, some "tel:0612345678".data, none, none, []⟩

/-! ### Lemmas about clean_text -/

theorem noDouble_cons {a : Char} {l : Str} (h : noDouble (a :: l) = true) :
    noDouble l = true := by
  cases l with
  | nil => rfl
  | cons b t => simp [noDouble] at h; exact h.2

theorem collapseWs_head_nospace {c : Char} (rest : Str)
    (h : isPySpace c = false) : collapseWs (c :: rest) = c :: collapseWs rest := by
  cases rest with
  | nil => simp [collapseWs, h]
  | cons r t => simp [collapseWs, h]

theorem spacesBlank_collapseWs (l : Str) : spacesBlank (collapseWs l) = true := by
  induction l using collapseWs.induct
  case case1 => rfl
  case case2 c h => simp [collapseWs, h, spacesBlank]
  case case3 c h =>
    have hf : isPySpace c = false := by simpa using h
    simp [collapseWs, hf, spacesBlank]
  case case4 c1 c2 rest h ih => simp only [collapseWs, h, if_pos]; exact ih
  case case5 c1 c2 rest h ih =>
    simp only [collapseWs, h, if_neg, Bool.not_eq_true]
    simp only [spacesBlank, List.all_cons, Bool.and_eq_true] at ih ⊢
    refine ⟨?_, ih⟩
    by_cases hc : isPySpace c1 <;> simp [hc]

theorem noDouble_collapseWs (l : Str) : noDouble (collapseWs l) = true := by
  induction l using collapseWs.induct
  case case1 => rfl
  case case2 c h => simp [collapseWs, h, noDouble]
  case case3 c h =>
    have hf : isPySpace c = false := by simpa using h
    simp [collapseWs, hf, noDouble]
  case case4 c1 c2 rest h ih => simp only [collapseWs, h, if_pos]; exact ih
  case case5 c1 c2 rest h ih =>
    simp only [collapseWs, h, if_neg, Bool.not_eq_true]
    simp only [Bool.and_eq_true, not_and] at h
    by_cases h1 : isPySpace c1
    · -- c1 is whitespace, so c2 is not; the collapsed tail starts with c2
      have h2 : isPySpace c2 = false := by
        cases hcc : isPySpace c2
        · rfl
        · exact absurd hcc (h h1)
      rw [collapseWs_head_nospace rest h2] at ih ⊢
      simp [noDouble, h2, ih, h1]
    · -- c1 is kept verbatim and is not whitespace
      have h1f : isPySpace c1 = false := by
        cases hcc : isPySpace c1
        · rfl
        · exact absurd hcc h1
      rw [if_neg (by simp [h1f])]
      cases hc : collapseWs (c2 :: rest) with
      | nil => simp [noDouble]
      | cons w ws => rw [hc] at ih; simp [noDouble, h1f, ih]

theorem collapseWs_eq_self {l : Str} (hb : spacesBlank l = true)
    (hn : noDouble l = true) : collapseWs l = l := by
  induction l using collapseWs.induct
  case case1 => rfl
  case case2 c h =>
    simp [spacesBlank, h] at hb
    simp [collapseWs, h, hb]
  case case3 c h => simp [collapseWs, h]
  case case4 c1 c2 rest h ih =>
    exfalso
    simp only [noDouble, Bool.and_eq_true, Bool.not_eq_true'] at hn
    exact absurd h (by simp [hn.1])
  case case5 c1 c2 rest h ih =>
    simp only [collapseWs, h, if_neg, Bool.not_eq_true]
    simp only [spacesBlank, List.all_cons, Bool.and_eq_true] at hb
    have tail := ih (by simp [spacesBlank, List.all_cons, hb.2.1, hb.2.2])
      (noDouble_cons hn)
    rw [tail]
    by_cases h1 : isPySpace c1
    · have hc1 : c1 = ' ' := by
        have := hb.1
        simp [h1] at this
        exact this
      simp [h1, hc1]
    · simp [h1]

theorem headNotSpace_dropWhile (l : Str) :
    headNotSpace (l.dropWhile isPySpace) = true := by
  induction l with
  | nil => rfl
  | cons c rest ih =>
    by_cases h : isPySpace c
    · simp [List.dropWhile, h, ih]
    · simp [List.dropWhile, h, headNotSpace]

theorem dropWhile_eq_self {l : Str} (h : headNotSpace l = true) :
    l.dropWhile isPySpace = l := by
  cases l with
  | nil => rfl
  | cons c rest =>
    simp [headNotSpace] at h
    simp [List.dropWhile, h]

theorem spacesBlank_dropWhile {l : Str} (h : spacesBlank l = true) :
    spacesBlank (l.dropWhile isPySpace) = true := by
  induction l with
  | nil => rfl
  | cons c rest ih =>
    simp only [spacesBlank, List.all_cons, Bool.and_eq_true] at h
    by_cases hc : isPySpace c
    · simp only [List.dropWhile, hc, if_pos]
      exact ih (by simp [spacesBlank, h.2])
    · simp only [List.dropWhile, hc]
      simp [spacesBlank, List.all_cons, h.1, h.2]

theorem noDouble_dropWhile {l : Str} (h : noDouble l = true) :
    noDouble (l.dropWhile isPySpace) = true := by
  induction l with
  | nil => rfl
  | cons c rest ih =>
    by_cases hc : isPySpace c
    · simp only [List.dropWhile, hc, if_pos]
      exact ih (noDouble_cons h)
    · simp only [List.dropWhile, hc]
      simpa using h

theorem trimRight_cons_ne {c : Char} {l : Str} (h : trimRight l ≠ []) :
    trimRight (c :: l) = c :: trimRight l := by
  simp only [trimRight]
  simp [h]

theorem trimRight_pre (l : Str) : ∃ t, l = trimRight l ++ t := by
  induction l with
  | nil => exact ⟨[], rfl⟩
  | cons c rest ih =>
    rcases ih with ⟨t, ht⟩
    by_cases he : trimRight rest = []
    · by_cases hc : isPySpace c
      · refine ⟨c :: rest, ?_⟩
        simp only [trimRight, he]
        simp [hc]
      · have hstep : trimRight (c :: rest) = c :: trimRight rest := by
          simp only [trimRight, he]
          simp [hc]
        exact ⟨rest, by simp [hstep, he]⟩
    · rw [trimRight_cons_ne he]
      exact ⟨t, by simpa using ht⟩

theorem spacesBlank_app_left {a b : Str} (h : spacesBlank (a ++ b) = true) :
    spacesBlank a = true := by
  simp only [spacesBlank, List.all_append, Bool.and_eq_true] at h
  exact h.1

theorem noDouble_app_left {b : Str} : ∀ {a : Str},
    noDouble (a ++ b) = true → noDouble a = true
  | [], _ => rfl
  | [_], _ => rfl
  | x :: y :: rest, h => by
    simp only [List.cons_append, noDouble, Bool.and_eq_true] at h ⊢
    exact ⟨h.1, noDouble_app_left (a := y :: rest) h.2⟩

theorem headNotSpace_app_left {a b : Str}
    (h : headNotSpace (a ++ b) = true) (hne : a ≠ []) :
    headNotSpace a = true := by
  cases a with
  | nil => rfl
  | cons c rest => simpa [headNotSpace] using h

theorem lastNotSpace_cons {c : Char} {l : Str} (h : l ≠ []) :
    lastNotSpace (c :: l) = lastNotSpace l := by
  cases l with
  | nil => exact absurd rfl h
  | cons x t => rfl

theorem lastNotSpace_trimRight (l : Str) : lastNotSpace (trimRight l) = true := by
  induction l with
  | nil => rfl
  | cons c rest ih =>
    by_cases he : trimRight rest = []
    · by_cases hc : isPySpace c
      · simp only [trimRight, he]
        simp [hc, lastNotSpace]
      · simp only [trimRight, he]
        simp [hc, lastNotSpace]
    · rw [trimRight_cons_ne he]
      rw [lastNotSpace_cons he]
      exact ih

theorem trimRight_eq_self {l : Str} (h : lastNotSpace l = true) :
    trimRight l = l := by
  induction l with
  | nil => rfl
  | cons c rest ih =>
    cases rest with
    | nil =>
      simp only [lastNotSpace, Bool.not_eq_true'] at h
      simp [trimRight, h]
    | cons x t =>
      rw [lastNotSpace_cons (by simp)] at h
      have ht := ih h
      rw [trimRight_cons_ne (by simp [ht]), ht]

theorem clean_text_shape (l : Str) :
    spacesBlank (clean_text l) = true ∧ noDouble (clean_text l) = true ∧
    headNotSpace (clean_text l) = true ∧ lastNotSpace (clean_text l) = true := by
  have hb : spacesBlank ((collapseWs l).dropWhile isPySpace) = true :=
    spacesBlank_dropWhile (spacesBlank_collapseWs l)
  have hn : noDouble ((collapseWs l).dropWhile isPySpace) = true :=
    noDouble_dropWhile (noDouble_collapseWs l)
  have hh : headNotSpace ((collapseWs l).dropWhile isPySpace) = true :=
    headNotSpace_dropWhile (collapseWs l)
  obtain ⟨t, htp⟩ := trimRight_pre ((collapseWs l).dropWhile isPySpace)
  have hb2 : spacesBlank (trimRight ((collapseWs l).dropWhile isPySpace) ++ t) = true := by
    rw [← htp]; exact hb
  have hn2 : noDouble (trimRight ((collapseWs l).dropWhile isPySpace) ++ t) = true := by
    rw [← htp]; exact hn
  have hh2 : headNotSpace (trimRight ((collapseWs l).dropWhile isPySpace) ++ t) = true := by
    rw [← htp]; exact hh
  refine ⟨spacesBlank_app_left hb2, noDouble_app_left hn2, ?_,
    lastNotSpace_trimRight _⟩
  show headNotSpace (trimRight ((collapseWs l).dropWhile isPySpace)) = true
  cases hcase : trimRight ((collapseWs l).dropWhile isPySpace) with
  | nil => rfl
  | cons x xs =>
    rw [← hcase]
    exact headNotSpace_app_left hh2 (by simp [hcase])

/-- C8: `clean_text` is total (it is a Lean function, defined on every
input), an absent or empty input yields the empty text, and it is
idempotent. -/
theorem claim_C8 :
    clean_text_opt none = [] ∧ clean_text [] = [] ∧
    ∀ x : Str, clean_text (clean_text x) = clean_text x := by
  refine ⟨rfl, rfl, fun x => ?_⟩
  obtain ⟨hb, hn, hh, hl⟩ := clean_text_shape x
  calc clean_text (clean_text x)
      = trimRight ((collapseWs (clean_text x)).dropWhile isPySpace) := rfl
    _ = trimRight ((clean_text x).dropWhile isPySpace) := by
        rw [collapseWs_eq_self hb hn]
    _ = trimRight (clean_text x) := by rw [dropWhile_eq_self hh]
    _ = clean_text x := trimRight_eq_self hl

/-! ### Lemmas about extract_int -/

theorem intMatchDigits_none {cs : Str} (h : ∀ c ∈ cs, isDig c = false) :
    intMatchDigits cs = none := by
  cases cs with
  | nil => rfl
  | cons c rest => simp [intMatchDigits, h c (by simp)]

theorem intMatchAt_none {cs : Str} (h : ∀ c ∈ cs, isDig c = false) :
    intMatchAt cs = none := by
  cases cs with
  | nil => rfl
  | cons c rest =>
    by_cases hm : c = '-'
    · simp only [intMatchAt, if_pos hm]
      rw [intMatchDigits_none (fun x hx => h x (by simp [hx]))]
      rfl
    · simp only [intMatchAt, if_neg hm]
      exact intMatchDigits_none h

theorem intSearch_none {cs : Str} (h : ∀ c ∈ cs, isDig c = false) :
    intSearch cs = none := by
  induction cs with
  | nil => rfl
  | cons c rest ih =>
    simp only [intSearch]
    rw [intMatchAt_none h]
    exact ih (fun x hx => h x (by simp [hx]))

theorem extract_int_no_digits {cs : Str} (h : ∀ c ∈ cs, isDig c = false) :
    extract_int cs = none := by
  by_cases he : cs = []
  · simp [extract_int, he]
  · simp only [extract_int, if_neg he]
    rw [intSearch_none h]

/-- C9: the two concrete `extract_int` examples, `extract_int` on any
digit-free text, and the concrete `extract_float` example. -/
theorem claim_C9 :
    extract_int "1 234 €".data = some 1234 ∧
    extract_int "no digits here".data = none ∧
    (∀ s : Str, (∀ c ∈ s, isDig c = false) → extract_int s = none) ∧
    extract_float "12,5 m²".data = some ((25 : ℚ) / 2) := by
  refine ⟨by decide, by decide, fun s h => extract_int_no_digits h, ?_⟩
  have h : floatSearch "12,5 m²".data = some (false, ['1', '2'], ['5']) := by decide
  have h2 : digitsToNat ['1', '2'] = 12 := by decide
  have h3 : digitsToNat ['5'] = 5 := by decide
  rw [extract_float, if_neg (by decide), h]
  norm_num [ratOfParts, h2, h3]

/-- C9 witness: the universally quantified conjunct applied at a concrete
digit-free input. -/
theorem claim_C9_witness : extract_int "xyz €".data = none :=
  claim_C9.2.2.1 "xyz €".data (by decide)

/-! ### Lemmas about the construction-year search -/

theorem dig_not_space {c : Char} (h : isDig c = true) : isPySpace c = false := by
  simp only [isDig, Bool.and_eq_true, decide_eq_true_eq] at h
  cases hsp : isPySpace c
  · rfl
  · exfalso
    simp only [isPySpace, Bool.or_eq_true, Bool.and_eq_true, beq_iff_eq,
      decide_eq_true_eq] at hsp
    omega

theorem space_ne_year_start {c : Char} (h : isPySpace c = true) :
    c ≠ '1' ∧ c ≠ '2' := by
  constructor <;> rintro rfl <;> exact absurd h (by decide)

theorem dropLit_eq {lit : Str} : ∀ {cs r : Str},
    dropLit lit cs = some r → cs = lit ++ r := by
  induction lit with
  | nil => intro cs r h; simp [dropLit] at h; simp [h]
  | cons l ls ih =>
    intro cs r h
    cases cs with
    | nil => simp [dropLit] at h
    | cons c rest =>
      simp only [dropLit] at h
      by_cases hc : c = l
      · rw [if_pos hc] at h
        subst hc
        simp [ih h]
      · rw [if_neg hc] at h
        exact absurd h (by simp)

theorem ws1_eq {cs w r : Str} (h : ws1 cs = some (w, r)) :
    cs = w ++ r ∧ w ≠ [] ∧ ∀ ch ∈ w, isPySpace ch = true := by
  cases cs with
  | nil => simp [ws1] at h
  | cons c rest =>
    simp only [ws1] at h
    by_cases hc : isPySpace c
    · rw [if_pos hc] at h
      simp only [Option.some.injEq, Prod.mk.injEq] at h
      refine ⟨?_, ?_, ?_⟩
      · rw [← h.1, ← h.2]
        simp [List.takeWhile_append_dropWhile]
      · rw [← h.1]; simp
      · rw [← h.1]
        intro ch hch
        rcases List.mem_cons.mp hch with hch | hch
        · subst hch; exact hc
        · exact List.mem_takeWhile_imp hch
    · rw [if_neg hc] at h
      exact absurd h (by simp)

theorem matchYearAt_some {cs y : Str} (h : matchYearAt cs = some y) :
    ∃ c1 c2 c3 c4 t, y = [c1, c2, c3, c4] ∧ cs = c1 :: c2 :: c3 :: c4 :: t ∧
      ((c1 = '1' ∧ c2 = '9') ∨ (c1 = '2' ∧ c2 = '0')) ∧
      isDig c3 = true ∧ isDig c4 = true := by
  match cs with
  | [] => exact absurd h (by simp [matchYearAt])
  | [a] => exact absurd h (by simp [matchYearAt])
  | [a, b] => exact absurd h (by simp [matchYearAt])
  | [a, b, c] => exact absurd h (by simp [matchYearAt])
  | c1 :: c2 :: c3 :: c4 :: t =>
    simp only [matchYearAt] at h
    by_cases hcond :
        (((c1 = '1' && c2 = '9') || (c1 = '2' && c2 = '0')) && isDig c3 && isDig c4) = true
    · rw [if_pos hcond] at h
      simp only [Option.some.injEq] at h
      simp only [Bool.and_eq_true, Bool.or_eq_true, decide_eq_true_eq] at hcond
      exact ⟨c1, c2, c3, c4, t, h.symm, rfl,
        by rcases hcond.1.1 with h12 | h12 <;> [left; right] <;> exact h12,
        hcond.1.2, hcond.2⟩
    · rw [if_neg hcond] at h
      exact absurd h (by simp)

theorem matchYearAt_build {c1 c2 c3 c4 : Char} (t : Str)
    (h12 : (c1 = '1' ∧ c2 = '9') ∨ (c1 = '2' ∧ c2 = '0'))
    (h3 : isDig c3 = true) (h4 : isDig c4 = true) :
    matchYearAt (c1 :: c2 :: c3 :: c4 :: t) = some [c1, c2, c3, c4] := by
  simp only [matchYearAt]
  rw [if_pos]
  simp only [Bool.and_eq_true, Bool.or_eq_true, decide_eq_true_eq]
  exact ⟨⟨by rcases h12 with h | h <;> [left; right] <;> simp [h.1, h.2], h3⟩, h4⟩

theorem matchYearAt_none_of_head {x : Char} {l : Str}
    (h1 : x ≠ '1') (h2 : x ≠ '2') : matchYearAt (x :: l) = none := by
  match l with
  | [] => rfl
  | [a] => rfl
  | [a, b] => rfl
  | a :: b :: c :: t =>
    simp only [matchYearAt]
    rw [if_neg]
    simp [h1, h2]

theorem firstYearToken_append {a : Str} (t : Str)
    (h : ∀ ch ∈ a, ch ≠ '1' ∧ ch ≠ '2') :
    firstYearToken (a ++ t) = firstYearToken t := by
  induction a with
  | nil => rfl
  | cons x rest ih =>
    have hx := h x (by simp)
    simp only [List.cons_append, firstYearToken]
    rw [matchYearAt_none_of_head hx.1 hx.2]
    exact ih (fun ch hch => h ch (by simp [hch]))

theorem firstYearToken_of_match {cs y : Str} (h : matchYearAt cs = some y) :
    firstYearToken cs = some y := by
  cases cs with
  | nil => simp [matchYearAt] at h
  | cons c rest => simp [firstYearToken, h]

theorem pySplitWs_ws {w : Str} (t : Str)
    (h : ∀ ch ∈ w, isPySpace ch = true) :
    pySplitWs (w ++ t) = pySplitWs t := by
  induction w with
  | nil => rfl
  | cons x rest ih =>
    have hx := h x (by simp)
    simp only [List.cons_append, pySplitWs, hx, if_pos]
    exact ih (fun ch hch => h ch (by simp [hch]))

theorem pySplitWs_word {a : Str} (t : Str) (hne : a ≠ [])
    (hns : ∀ ch ∈ a, isPySpace ch = false)
    (hsep : t = [] ∨ ∃ s ts, t = s :: ts ∧ isPySpace s = true) :
    pySplitWs (a ++ t) = a :: pySplitWs t := by
  induction a with
  | nil => exact absurd rfl hne
  | cons x rest ih =>
    have hx := hns x (by simp)
    cases rest with
    | nil =>
      rcases hsep with h | ⟨s, ts, hts, hs⟩
      · subst h; simp [pySplitWs, hx]
      · subst hts
        simp [pySplitWs, hx, hs]
    | cons y rest2 =>
      have hy := hns y (by simp)
      have tail := ih (by simp) (fun ch hch => hns ch (by simp [hch]))
      simp only [List.cons_append, pySplitWs, hx, Bool.false_eq_true, if_neg,
        Bool.not_eq_true] at tail ⊢
      rw [tail]
      simp [hy]

theorem lastTokenD_word {y : Str} (hne : y ≠ [])
    (hns : ∀ ch ∈ y, isPySpace ch = false) : lastTokenD y = y := by
  have h := pySplitWs_word [] hne hns (Or.inl rfl)
  rw [List.append_nil] at h
  simp [lastTokenD, h, pySplitWs]

theorem prefixedAt_spec {cs m y : Str} (h : prefixedAt cs = some (m, y)) :
    ∃ w1 w2 r4, cs = "Construction".data ++ w1 ++ "en".data ++ w2 ++ r4 ∧
      m = "Construction".data ++ w1 ++ "en".data ++ w2 ++ y ∧
      matchYearAt r4 = some y ∧ w1 ≠ [] ∧ w2 ≠ [] ∧
      (∀ ch ∈ w1, isPySpace ch = true) ∧ (∀ ch ∈ w2, isPySpace ch = true) := by
  simp only [prefixedAt, Option.bind_eq_bind] at h
  cases h1 : dropLit "Construction".data cs with
  | none => rw [h1, Option.none_bind] at h; exact absurd h (by simp)
  | some r1 =>
    rw [h1, Option.some_bind] at h
    cases h2 : ws1 r1 with
    | none => rw [h2, Option.none_bind] at h; exact absurd h (by simp)
    | some p1 =>
      obtain ⟨w1, r2⟩ := p1
      rw [h2, Option.some_bind] at h
      cases h3 : dropLit "en".data r2 with
      | none => rw [h3, Option.none_bind] at h; exact absurd h (by simp)
      | some r3 =>
        rw [h3, Option.some_bind] at h
        cases h4 : ws1 r3 with
        | none => rw [h4, Option.none_bind] at h; exact absurd h (by simp)
        | some p2 =>
          obtain ⟨w2, r4⟩ := p2
          rw [h4, Option.some_bind] at h
          cases h5 : matchYearAt r4 with
          | none => rw [h5, Option.none_bind] at h; exact absurd h (by simp)
          | some y0 =>
            rw [h5, Option.some_bind] at h
            simp only [pure, Option.some.injEq, Prod.mk.injEq] at h
            obtain ⟨hm, hy⟩ := h
            subst hy
            refine ⟨w1, w2, r4, ?_, hm.symm, h5, (ws1_eq h2).2.1, (ws1_eq h4).2.1,
              (ws1_eq h2).2.2, (ws1_eq h4).2.2⟩
            rw [dropLit_eq h1, (ws1_eq h2).1, dropLit_eq h3, (ws1_eq h4).1]
            simp

theorem year_chars_digits {c1 c2 c3 c4 : Char}
    (h12 : (c1 = '1' ∧ c2 = '9') ∨ (c1 = '2' ∧ c2 = '0'))
    (h3 : isDig c3 = true) (h4 : isDig c4 = true) :
    ∀ ch ∈ [c1, c2, c3, c4], isDig ch = true := by
  intro ch hch
  rcases h12 with ⟨e1, e2⟩ | ⟨e1, e2⟩ <;> subst e1 <;> subst e2 <;>
    simp only [List.mem_cons, List.mem_singleton, List.not_mem_nil, or_false] at hch <;>
    rcases hch with rfl | rfl | rfl | rfl <;> first | decide | exact h3 | exact h4

theorem pySplitWs_single {y : Str} (hne : y ≠ [])
    (hns : ∀ ch ∈ y, isPySpace ch = false) : pySplitWs y = [y] := by
  have h := pySplitWs_word [] hne hns (Or.inl rfl)
  rw [List.append_nil] at h
  simpa [pySplitWs] using h

theorem reYearSearch_eq (cs : Str) :
    (reYearSearch cs).map lastTokenD = firstYearToken cs := by
  induction cs with
  | nil => rfl
  | cons c rest ih =>
    cases hf : fullMatchAt (c :: rest) with
    | some m =>
      have hr : reYearSearch (c :: rest) = some m := by
        simp [reYearSearch, hf]
      rw [hr, Option.map_some']
      unfold fullMatchAt at hf
      cases hp : prefixedAt (c :: rest) with
      | some p =>
        obtain ⟨m0, y⟩ := p
        rw [hp] at hf
        simp only [Option.some.injEq] at hf
        subst hf
        obtain ⟨w1, w2, r4, hcs, hm, hy, hw1ne, hw2ne, hw1, hw2⟩ :=
          prefixedAt_spec hp
        obtain ⟨c1, c2, c3, c4, t, hyy, hr4, h12, h3, h4⟩ := matchYearAt_some hy
        have hy_ne : y ≠ [] := by rw [hyy]; simp
        have hy_ns : ∀ ch ∈ y, isPySpace ch = false := by
          intro ch hch
          exact dig_not_space (year_chars_digits h12 h3 h4 ch (hyy ▸ hch))
        have hC_ns : ∀ ch ∈ "Construction".data, isPySpace ch = false := by decide
        have hE_ns : ∀ ch ∈ "en".data, isPySpace ch = false := by decide
        have hsep1 : ∀ (x : Str), w1 ++ x = [] ∨
            ∃ s ts, w1 ++ x = s :: ts ∧ isPySpace s = true := by
          intro x
          cases hw : w1 with
          | nil => exact absurd hw hw1ne
          | cons s ts =>
            exact Or.inr ⟨s, ts ++ x, by simp, hw1 s (by simp [hw])⟩
        have hsep2 : ∀ (x : Str), w2 ++ x = [] ∨
            ∃ s ts, w2 ++ x = s :: ts ∧ isPySpace s = true := by
          intro x
          cases hw : w2 with
          | nil => exact absurd hw hw2ne
          | cons s ts =>
            exact Or.inr ⟨s, ts ++ x, by simp, hw2 s (by simp [hw])⟩
        have hsplit : pySplitWs m0 = ["Construction".data, "en".data, y] := by
          rw [hm]
          simp only [List.append_assoc]
          rw [pySplitWs_word (w1 ++ ("en".data ++ (w2 ++ y))) (by decide) hC_ns
            (by simpa using hsep1 ("en".data ++ (w2 ++ y)))]
          rw [pySplitWs_ws ("en".data ++ (w2 ++ y)) hw1]
          rw [pySplitWs_word (w2 ++ y) (by decide) hE_ns
            (by simpa using hsep2 y)]
          rw [pySplitWs_ws y hw2]
          rw [pySplitWs_single hy_ne hy_ns]
        have hlast : lastTokenD m0 = y := by
          simp [lastTokenD, hsplit]
        have hC12 : ∀ ch ∈ "Construction".data, ch ≠ '1' ∧ ch ≠ '2' := by decide
        have hE12 : ∀ ch ∈ "en".data, ch ≠ '1' ∧ ch ≠ '2' := by decide
        have hw112 : ∀ ch ∈ w1, ch ≠ '1' ∧ ch ≠ '2' :=
          fun ch h => space_ne_year_start (hw1 ch h)
        have hw212 : ∀ ch ∈ w2, ch ≠ '1' ∧ ch ≠ '2' :=
          fun ch h => space_ne_year_start (hw2 ch h)
        have hstart : firstYearToken (c :: rest) = some y := by
          rw [hcs]
          simp only [List.append_assoc]
          rw [firstYearToken_append _ hC12, firstYearToken_append _ hw112,
            firstYearToken_append _ hE12, firstYearToken_append _ hw212,
            firstYearToken_of_match hy]
        rw [hlast, hstart]
      | none =>
        rw [hp] at hf
        obtain ⟨c1, c2, c3, c4, t, hyy, hr4, h12, h3, h4⟩ := matchYearAt_some hf
        have hm_ns : ∀ ch ∈ m, isPySpace ch = false := by
          intro ch hch
          exact dig_not_space (year_chars_digits h12 h3 h4 ch (hyy ▸ hch))
        rw [lastTokenD_word (by rw [hyy]; simp) hm_ns,
          firstYearToken_of_match hf]
    | none =>
      have hyn : matchYearAt (c :: rest) = none := by
        unfold fullMatchAt at hf
        cases hp : prefixedAt (c :: rest) with
        | some p => obtain ⟨a, b⟩ := p; rw [hp] at hf; exact absurd hf (by simp)
        | none => rw [hp] at hf; exact hf
      have hr : reYearSearch (c :: rest) = reYearSearch rest := by
        simp [reYearSearch, hf]
      rw [hr]
      simp only [firstYearToken, hyn]
      exact ih

/-- C3 counterexample: on a document with two year tokens, the code
returns the FIRST one (`re.search` is leftmost), not the last one the
claim describes; the spec-modelled last-token function disagrees with
the code on this input. -/
theorem claim_C3_counterexample :
    constructionDateOf exYearDoc = some "1950".data ∧
    lastYearToken exYearDoc = some "2005".data ∧
    constructionDateOf exYearDoc ≠ lastYearToken exYearDoc := by
  refine ⟨by decide, by decide, by decide⟩

/-- C3 amended: `construction_date` is the FIRST 4-digit year-like token
(`(19|20)\d\d`, range 1900-2099) in the raw document text — an optional
immediately preceding `Construction en` phrase is skipped over without
changing which token is found — and nothing when no such token occurs;
on a document with two distinct year tokens the EARLIER one is returned. -/
theorem claim_C3 (cs : Str) : constructionDateOf cs = firstYearToken cs := by
  unfold constructionDateOf
  exact reYearSearch_eq cs

/-! ### Lemmas about the delta engine -/

theorem hasKey_iff {idx : List (String × DRec)} {u : String} :
    hasKey idx u = true ↔ ∃ p ∈ idx, p.1 = u := by
  induction idx with
  | nil => simp [hasKey]
  | cons p rest ih =>
    simp only [hasKey, Bool.or_eq_true, beq_iff_eq, ih, List.mem_cons]
    constructor
    · rintro (h | ⟨q, hq, he⟩)
      · exact ⟨p, Or.inl rfl, h⟩
      · exact ⟨q, Or.inr hq, he⟩
    · rintro ⟨q, hq | hq, he⟩
      · subst hq; exact Or.inl he
      · exact Or.inr ⟨q, hq, he⟩

theorem lookupIdx_none_iff {idx : List (String × DRec)} {u : String} :
    lookupIdx idx u = none ↔ hasKey idx u = false := by
  induction idx with
  | nil => simp [lookupIdx, hasKey]
  | cons p rest ih =>
    simp only [lookupIdx, hasKey, Bool.or_eq_false_iff, beq_eq_false_iff_ne, ne_eq]
    by_cases hp : p.1 = u
    · simp [hp]
    · simp [hp, ih]

theorem lookupIdx_map_ne (idx : List (String × DRec)) (u v : String)
    (r : DRec) (hv : v ≠ u) :
    lookupIdx (idx.map (fun p => if p.1 = u then (u, r) else p)) v =
      lookupIdx idx v := by
  induction idx with
  | nil => rfl
  | cons p rest ih =>
    have hv2 : ¬(u = v) := fun e => hv e.symm
    by_cases hp : p.1 = u
    · simp [List.map_cons, lookupIdx, hp, hv2, ih]
    · simp only [List.map_cons, lookupIdx, if_neg hp]
      by_cases hpv : p.1 = v
      · simp [hpv]
      · simp [hpv, ih]

theorem lookupIdx_map_eq (idx : List (String × DRec)) (u : String)
    (r : DRec) (hk : hasKey idx u = true) :
    lookupIdx (idx.map (fun p => if p.1 = u then (u, r) else p)) u =
      some r := by
  induction idx with
  | nil => exact absurd hk (by simp [hasKey])
  | cons p rest ih =>
    by_cases hp : p.1 = u
    · simp [List.map_cons, lookupIdx, hp]
    · simp only [List.map_cons, lookupIdx, if_neg hp]
      refine ih ?_
      simp only [hasKey, Bool.or_eq_true, beq_iff_eq] at hk
      rcases hk with hk | hk
      · exact absurd hk hp
      · exact hk

theorem lookupIdx_append_one (idx : List (String × DRec)) (u v : String)
    (r : DRec) (hk : hasKey idx u = false) :
    lookupIdx (idx ++ [(u, r)]) v =
      if v = u then some r else lookupIdx idx v := by
  induction idx with
  | nil =>
    simp only [List.nil_append, lookupIdx]
    by_cases hv : v = u
    · simp [hv]
    · have hv2 : ¬(u = v) := fun e => hv e.symm
      simp [hv, hv2]
  | cons p rest ih =>
    simp only [hasKey, Bool.or_eq_false_iff, beq_eq_false_iff_ne, ne_eq] at hk
    rw [List.cons_append]
    simp only [lookupIdx]
    by_cases hpv : p.1 = v
    · rw [if_pos hpv]
      rw [if_neg (fun e : v = u => hk.1 (e ▸ hpv)), if_pos hpv]
    · rw [if_neg hpv, ih (by simpa using hk.2)]
      by_cases hv : v = u
      · rw [if_pos hv, if_pos hv]
      · rw [if_neg hv, if_neg hv, if_neg hpv]

theorem lookupIdx_insertLWW (idx : List (String × DRec)) (u v : String)
    (r : DRec) :
    lookupIdx (insertLWW idx u r) v =
      if v = u then some r else lookupIdx idx v := by
  unfold insertLWW
  by_cases hk : hasKey idx u = true
  · rw [if_pos hk]
    by_cases hv : v = u
    · subst hv
      rw [if_pos rfl]
      exact lookupIdx_map_eq idx v r hk
    · rw [if_neg hv]
      exact lookupIdx_map_ne idx u v r hv
  · rw [if_neg hk]
    exact lookupIdx_append_one idx u v r (by simpa using hk)

theorem lookupIdx_fold (items : List DRec) (idx : List (String × DRec))
    (u : String) :
    lookupIdx (items.foldl (fun idx item =>
        match keyOf item with
        | some u => insertLWW idx u item
        | none => idx) idx) u =
      match lastWithUrl items u with
      | some x => some x
      | none => lookupIdx idx u := by
  induction items generalizing idx with
  | nil => rfl
  | cons r rest ih =>
    simp only [List.foldl_cons]
    rw [ih]
    cases hl : lastWithUrl rest u with
    | some x => simp [lastWithUrl, hl]
    | none =>
      simp only [lastWithUrl, hl]
      cases hk : keyOf r with
      | some u2 =>
        simp only [hk]
        rw [lookupIdx_insertLWW]
        by_cases hu : u = u2
        · subst hu
          simp
        · rw [if_neg hu,
            if_neg (show ¬(some u2 = some u) from fun e => hu (Option.some.inj e).symm)]
      | none => simp [hk]

theorem lookupIdx_indexByUrl (items : List DRec) (u : String) :
    lookupIdx (indexByUrl items) u = lastWithUrl items u := by
  unfold indexByUrl
  rw [lookupIdx_fold]
  cases hl : lastWithUrl items u <;> simp [lookupIdx]

theorem keysNodup_insertLWW {idx : List (String × DRec)} (u : String)
    (r : DRec) (h : keysNodup idx) : keysNodup (insertLWW idx u r) := by
  unfold insertLWW
  by_cases hk : hasKey idx u = true
  · rw [if_pos hk]
    unfold keysNodup at h ⊢
    have : (idx.map (fun p => if p.1 = u then (u, r) else p)).map (fun p => p.1) =
        idx.map (fun p => p.1) := by
      rw [List.map_map]
      refine List.map_congr_left ?_
      intro p hp
      by_cases hpu : p.1 = u
      · simp [hpu]
      · simp [hpu]
    rw [this]
    exact h
  · rw [if_neg hk]
    unfold keysNodup at h ⊢
    rw [List.map_append]
    rw [List.nodup_append]
    refine ⟨h, by simp, ?_⟩
    intro a ha hb
    simp only [List.map_cons, List.map_nil, List.mem_singleton] at hb
    rw [hb] at ha
    have : hasKey idx u = true := by
      rcases List.mem_map.mp ha with ⟨p, hp, he⟩
      exact hasKey_iff.mpr ⟨p, hp, he⟩
    exact absurd this (by simpa using hk)

theorem keysNodup_indexByUrl (items : List DRec) :
    keysNodup (indexByUrl items) := by
  unfold indexByUrl
  have main : ∀ (l : List DRec) (idx : List (String × DRec)), keysNodup idx →
      keysNodup (l.foldl (fun idx item =>
        match keyOf item with
        | some u => insertLWW idx u item
        | none => idx) idx) := by
    intro l
    induction l with
    | nil => intro idx h; exact h
    | cons r rest ih =>
      intro idx h
      simp only [List.foldl_cons]
      refine ih _ ?_
      cases hk : keyOf r with
      | some u2 => exact keysNodup_insertLWW u2 r h
      | none => exact h
  exact main items [] (by simp [keysNodup])

theorem mem_iff_lookupIdx {idx : List (String × DRec)} (hnd : keysNodup idx)
    {u : String} {r : DRec} :
    (u, r) ∈ idx ↔ lookupIdx idx u = some r := by
  induction idx with
  | nil => simp [lookupIdx]
  | cons p rest ih =>
    unfold keysNodup at hnd
    simp only [List.map_cons, List.nodup_cons] at hnd
    simp only [List.mem_cons, lookupIdx]
    by_cases hp : p.1 = u
    · rw [if_pos hp]
      constructor
      · rintro (he | hm)
        · rw [← he]
        · exfalso
          exact hnd.1 (hp ▸ List.mem_map.mpr ⟨(u, r), hm, rfl⟩)
      · intro he
        left
        have hr : r = p.2 := (Option.some.inj he).symm
        rw [hr, ← hp]
    · rw [if_neg hp]
      rw [ih hnd.2]
      constructor
      · rintro (he | hm)
        · exact absurd (by rw [← he]) hp
        · exact hm
      · exact Or.inr

theorem delta_mem_char (A B : List DRec) (r : DRec) :
    (r ∈ ((indexByUrl A).filter
        (fun p => !hasKey (indexByUrl B) p.1)).map (fun p => p.2)) ↔
      ∃ u, lastWithUrl A u = some r ∧ lastWithUrl B u = none := by
  rw [List.mem_map]
  constructor
  · rintro ⟨p, hp, he⟩
    rw [List.mem_filter] at hp
    obtain ⟨hmem, hkey⟩ := hp
    refine ⟨p.1, ?_, ?_⟩
    · rw [← lookupIdx_indexByUrl, ← he]
      exact (mem_iff_lookupIdx (keysNodup_indexByUrl A)
        (u := p.1) (r := p.2)).mp (by simpa using hmem)
    · rw [← lookupIdx_indexByUrl, lookupIdx_none_iff]
      simpa using hkey
  · rintro ⟨u, hA, hB⟩
    rw [← lookupIdx_indexByUrl] at hA hB
    refine ⟨(u, r), ?_, rfl⟩
    rw [List.mem_filter]
    refine ⟨(mem_iff_lookupIdx (keysNodup_indexByUrl A)).mpr hA, ?_⟩
    simp [lookupIdx_none_iff.mp hB]

/-- C1: `compute_delta` returns the full current list unchanged in
`current`; the index it builds for each list maps a url to the LAST
record of that list carrying it (later occurrence wins, records with a
missing or empty url ignored); `new` holds exactly the current-indexed
records whose url is absent from the previous index, and `removed`
exactly the previous-indexed records whose url is absent from the
current index. -/
theorem claim_C1 (previous current : List DRec) :
    (compute_delta previous current).current = current ∧
    (∀ (items : List DRec) (u : String),
      lookupIdx (indexByUrl items) u = lastWithUrl items u) ∧
    (∀ r : DRec, r ∈ (compute_delta previous current).new ↔
      ∃ u, lastWithUrl current u = some r ∧ lastWithUrl previous u = none) ∧
    (∀ r : DRec, r ∈ (compute_delta previous current).removed ↔
      ∃ u, lastWithUrl previous u = some r ∧ lastWithUrl current u = none) :=
  ⟨rfl, fun items u => lookupIdx_indexByUrl items u,
    fun r => delta_mem_char current previous r,
    fun r => delta_mem_char previous current r⟩

/-- C1 witness: the spec's own delta example, previous `[a, b]`, current
`[b, c]`. -/
theorem claim_C1_witness :
    (compute_delta [⟨some "a", 0⟩, ⟨some "b", 1⟩]
        [⟨some "b", 2⟩, ⟨some "c", 3⟩]).current =
      [⟨some "b", 2⟩, ⟨some "c", 3⟩] ∧
    (⟨some "c", 3⟩ : DRec) ∈
      (compute_delta [⟨some "a", 0⟩, ⟨some "b", 1⟩]
        [⟨some "b", 2⟩, ⟨some "c", 3⟩]).new :=
  ⟨(claim_C1 _ _).1,
    ((claim_C1 [⟨some "a", 0⟩, ⟨some "b", 1⟩]
        [⟨some "b", 2⟩, ⟨some "c", 3⟩]).2.2.1 _).mpr
      ⟨"c", by decide, by decide⟩⟩

/-! ### Lemmas about the enrichment orchestrator -/

theorem parse_listing_page_ne_nil (ts : Str) (d : DetailDoc)
    (s : ListingSummary) : parse_listing_page ts d s ≠ [] := by
  simp [parse_listing_page]

theorem deep_scrape_fold (fetch : Str → Option DetailDoc) (ts : Str) :
    ∀ (l : List ListingSummary)
      (acc : List (List (String × Value)) × List Str),
    (l.foldl (deepStep fetch ts) acc).2 = acc.2 ++ l.map (fun s => s.url) ∧
    (l.foldl (deepStep fetch ts) acc).1 = acc.1 ++ l.filterMap (fun s =>
      (fetch s.url).map (fun d => parse_listing_page ts d s)) := by
  intro l
  induction l with
  | nil => intro acc; simp
  | cons s rest ih =>
    intro acc
    rw [List.foldl_cons]
    cases hk : fetch s.url with
    | some d =>
      have hne := parse_listing_page_ne_nil ts d s
      have hstep : deepStep fetch ts acc s =
          (acc.1 ++ [parse_listing_page ts d s], acc.2 ++ [s.url]) := by
        simp [deepStep, hk, hne]
      rw [hstep]
      obtain ⟨ih1, ih2⟩ := ih (acc.1 ++ [parse_listing_page ts d s], acc.2 ++ [s.url])
      constructor
      · rw [ih1]; simp
      · rw [ih2]; simp [hk]
    | none =>
      have hstep : deepStep fetch ts acc s = (acc.1, acc.2 ++ [s.url]) := by
        simp [deepStep, hk]
      rw [hstep]
      obtain ⟨ih1, ih2⟩ := ih (acc.1, acc.2 ++ [s.url])
      constructor
      · rw [ih1]; simp
      · rw [ih2]; simp [hk]

theorem lookup_url_parse (ts : Str) (d : DetailDoc) (s : ListingSummary) :
    List.lookup "url" (parse_listing_page ts d s) =
      some (Value.text s.url) := rfl

/-- C2: in one run of the orchestrator every summary's url is fetched
exactly once (the fetch log is exactly the url list, no retries); the
results are exactly one record per summary whose fetch-and-parse
succeeded (a failure drops only that summary); and no result carries the
url of a summary whose fetch failed.  The fold returns only after
processing every summary.  The thread pool is modelled sequentially:
the claim's properties are independent of completion order. -/
theorem claim_C2 (fetch : Str → Option DetailDoc) (ts : Str)
    (summaries : List ListingSummary) :
    (deep_scrape_summaries fetch ts summaries).2 =
      summaries.map (fun s => s.url) ∧
    (deep_scrape_summaries fetch ts summaries).1 =
      summaries.filterMap (fun s =>
        (fetch s.url).map (fun d => parse_listing_page ts d s)) ∧
    (∀ s ∈ summaries, fetch s.url = none →
      ∀ rec ∈ (deep_scrape_summaries fetch ts summaries).1,
        List.lookup "url" rec ≠ some (Value.text s.url)) := by
  obtain ⟨h2, h1⟩ := deep_scrape_fold fetch ts summaries ([], [])
  refine ⟨by simpa using h2, by simpa using h1, ?_⟩
  intro s hs hf rec hrec
  rw [show (deep_scrape_summaries fetch ts summaries).1 = _ from by simpa using h1]
    at hrec
  rcases List.mem_filterMap.mp hrec with ⟨s2, hs2, he⟩
  rcases Option.map_eq_some'.mp he with ⟨d, hd, hpd⟩
  rw [← hpd, lookup_url_parse]
  intro hcon
  have : s2.url = s.url := by
    have := Option.some.inj hcon
    injection this
  rw [this] at hd
  rw [hd] at hf
  exact Option.noConfusion hf

/-- C2 witness: with 5 summaries and the third fetch failing, there are
5 fetch calls, exactly 4 records, and none for the failing url. -/
theorem claim_C2_witness :
    (deep_scrape_summaries exFetch "T".data exSummaries).2.length = 5 ∧
    (deep_scrape_summaries exFetch "T".data exSummaries).1.length = 4 ∧
    ∀ rec ∈ (deep_scrape_summaries exFetch "T".data exSummaries).1,
      List.lookup "url" rec ≠ some (Value.text "u3".data) := by
  obtain ⟨h2, h1, h3⟩ := claim_C2 exFetch "T".data exSummaries
  refine ⟨by rw [h2]; rfl, by rw [h1]; rfl, ?_⟩
  intro rec hrec
  exact h3 (⟨"t3".data, "u3".data, none, none, []⟩ : ListingSummary)
    (by simp [exSummaries]) (by rfl) rec hrec

/-! ### Summary extractor claims -/

/-- C6: the extractor uses exactly the result set of the first selector
with at least one match: when every selector misses it returns the empty
sequence (not an error — the function is total); when selector 1 hits,
the result is computed from selector 1's cards alone and is independent
of what the other selectors would have returned (no merging); when
selector 1 misses and selector 2 hits, selector 2's set is used; when
only selector 3 hits, selector 3's set is used. -/
theorem claim_C6 (d d2 : SearchDoc) :
    (d.s1 = [] → d.s2 = [] → d.s3 = [] → parse_search_results d = []) ∧
    (d.s1 ≠ [] → parse_search_results d = process_cards d.s1) ∧
    (d.s1 ≠ [] → d.s1 = d2.s1 →
      parse_search_results d = parse_search_results d2) ∧
    (d.s1 = [] → d.s2 ≠ [] → parse_search_results d = process_cards d.s2) ∧
    (d.s1 = [] → d.s2 = [] → d.s3 ≠ [] →
      parse_search_results d = process_cards d.s3) := by
  refine ⟨?_, ?_, ?_, ?_, ?_⟩
  · intro h1 h2 h3
    simp [parse_search_results, selectCards, h1, h2, h3]
  · intro h1
    simp [parse_search_results, selectCards, h1]
  · intro h1 he
    have e1 : parse_search_results d = process_cards d.s1 := by
      simp [parse_search_results, selectCards, h1]
    have e2 : parse_search_results d2 = process_cards d2.s1 := by
      simp [parse_search_results, selectCards, he ▸ h1]
    rw [e1, e2, he]
  · intro h1 h2
    simp [parse_search_results, selectCards, h1, h2]
  · intro h1 h2 h3
    simp [parse_search_results, selectCards, h1, h2, h3]

/-- C6 witness: the interesting hypotheses discharged at concrete
documents — a document where only the third selector hits, one where all
miss, and independence from the later selectors' contents. -/
theorem claim_C6_witness :
    parse_search_results ⟨[], [], [exCardOk]⟩ = process_cards [exCardOk] ∧
    parse_search_results ⟨[], [], []⟩ = [] ∧
    parse_search_results ⟨[exCardOk], [exCardNoHref], []⟩ =
      parse_search_results ⟨[exCardOk], [], [exCardNoHref]⟩ :=
  ⟨(claim_C6 ⟨[], [], [exCardOk]⟩ ⟨[], [], [exCardOk]⟩).2.2.2.2 rfl rfl
      (by simp),
    (claim_C6 ⟨[], [], []⟩ ⟨[], [], []⟩).1 rfl rfl rfl,
    (claim_C6 ⟨[exCardOk], [exCardNoHref], []⟩
      ⟨[exCardOk], [], [exCardNoHref]⟩).2.2.1 (by simp) rfl⟩

theorem process_card_url {c : Card} {s : ListingSummary}
    (h : process_card c = some s) : s.url ≠ [] := by
  unfold process_card at h
  by_cases hu : cardUrl c = []
  · rw [if_pos hu] at h
    exact absurd h (by simp)
  · rw [if_neg hu] at h
    rw [← Option.some.inj h]
    exact hu

theorem process_cards_url (cards : List Card) :
    ∀ s ∈ process_cards cards, s.url ≠ [] := by
  induction cards with
  | nil => intro s hs; simp [process_cards] at hs
  | cons c rest ih =>
    intro s hs
    simp only [process_cards] at hs
    cases hc : process_card c with
    | some s2 =>
      rw [hc] at hs
      rcases List.mem_cons.mp hs with he | hm
      · exact he ▸ process_card_url hc
      · exact ih s hm
    | none =>
      rw [hc] at hs
      exact ih s hs

theorem process_cards_skip {c : Card} (hc : process_card c = none) :
    ∀ pre post : List Card,
      process_cards (pre ++ c :: post) = process_cards (pre ++ post) := by
  intro pre
  induction pre with
  | nil => intro post; simp [process_cards, hc]
  | cons p pre2 ih =>
    intro post
    rw [List.cons_append, List.cons_append]
    simp only [process_cards]
    rw [ih post]

/-- C4 counterexample: a card whose `href` is `foo.html` is retained
with that relative, non-absolute url unchanged — the retained url is
non-empty but NOT absolute, refuting the claimed invariant. -/
theorem claim_C4_counterexample :
    process_cards [exCardRel] =
      [⟨"Property listing".data, "foo.html".data, none, none, []⟩] ∧
    isAbsoluteUrl "foo.html".data = false := by
  refine ⟨by decide, by decide⟩

/-- C4 amended: every retained summary has a NON-EMPTY url (but not
necessarily an absolute one: an href that is relative without a leading
slash is kept verbatim); a card with no extractable href is dropped while
its sibling cards are still processed; and an href beginning with a slash
is rewritten to absolute by prefixing the site origin. -/
theorem claim_C4 (cards pre post : List Card) (c : Card) (h : Str) :
    (∀ s ∈ process_cards cards, s.url ≠ []) ∧
    (c.hrefEl = none → process_card c = none) ∧
    (process_card c = none →
      process_cards (pre ++ c :: post) = process_cards (pre ++ post)) ∧
    (c.hrefEl = some h → leadsWith "/".data h = true →
      ∃ s, process_card c = some s ∧ s.url = siteOrigin ++ h) := by
  refine ⟨process_cards_url cards, ?_, fun hc => process_cards_skip hc pre post, ?_⟩
  · intro hh
    simp [process_card, cardUrl, hh]
  · intro hh hl
    have hne : h ≠ [] := by
      cases h with
      | nil => exact absurd hl (by decide)
      | cons a t => simp
    have hu : cardUrl c = siteOrigin ++ h := by
      simp [cardUrl, hh, hne, hl]
    have hu2 : ¬ cardUrl c = [] := by
      rw [hu]; simp [siteOrigin]
    unfold process_card
    rw [if_neg hu2]
    exact ⟨_, rfl, hu⟩

/-- C4 witness: the amended claim at concrete cards — a relative
slash-prefixed href is absolutised, a card without href is dropped while
its sibling survives, and every retained url is non-empty. -/
theorem claim_C4_witness :
    (∀ s ∈ process_cards [exCardNoHref, exCardOk], s.url ≠ []) ∧
    process_card exCardNoHref = none ∧
    process_cards ([] ++ exCardNoHref :: [exCardOk]) =
      process_cards ([] ++ [exCardOk]) ∧
    ∃ s, process_card exCardOk = some s ∧
      s.url = siteOrigin ++ "/annonce/1".data := by
  obtain ⟨h1, h2, h3, h4⟩ :=
    claim_C4 [exCardNoHref, exCardOk] [] [exCardOk] exCardNoHref "x".data
  refine ⟨h1, h2 rfl, h3 (h2 rfl), ?_⟩
  obtain ⟨-, -, -, h4b⟩ :=
    claim_C4 [] [] [] exCardOk "/annonce/1".data
  exact h4b rfl (by decide)

/-! ### Price sign analysis (C5) -/

theorem intMatchDigits_mem {l m : Str} (h : intMatchDigits l = some m) :
    ∀ ch ∈ m, ch ∈ l := by
  cases l with
  | nil => exact absurd h (by simp [intMatchDigits])
  | cons c rest =>
    simp only [intMatchDigits] at h
    by_cases hd : isDig c = true
    · rw [if_pos hd] at h
      intro ch hch
      rw [← Option.some.inj h] at hch
      rcases List.mem_cons.mp hch with rfl | hch
      · simp
      · have : ch ∈ rest :=
          (List.takeWhile_sublist isDigitOrSpace).subset hch
        simp [this]
    · rw [if_neg hd] at h
      exact absurd h (by simp)

theorem intMatchAt_mem {l m : Str} (h : intMatchAt l = some m) :
    ∀ ch ∈ m, ch ∈ l := by
  cases l with
  | nil => exact absurd h (by simp [intMatchAt])
  | cons c rest =>
    simp only [intMatchAt] at h
    by_cases hm : c = '-'
    · rw [if_pos hm] at h
      rcases Option.map_eq_some'.mp h with ⟨m2, hm2, he⟩
      intro ch hch
      rw [← he] at hch
      rcases List.mem_cons.mp hch with rfl | hch
      · simp
      · exact List.mem_cons_of_mem c (intMatchDigits_mem hm2 ch hch)
    · rw [if_neg hm] at h
      exact intMatchDigits_mem h

theorem intSearch_mem {l m : Str} (h : intSearch l = some m) :
    ∀ ch ∈ m, ch ∈ l := by
  induction l with
  | nil => exact absurd h (by simp [intSearch])
  | cons c rest ih =>
    unfold intSearch at h
    cases hm : intMatchAt (c :: rest) with
    | some m2 =>
      rw [hm] at h
      rw [← Option.some.inj h]
      exact intMatchAt_mem hm
    | none =>
      rw [hm] at h
      intro ch hch
      exact List.mem_cons_of_mem c (ih h ch hch)

theorem mem_pyStrip {l : Str} {a : Char} (h : a ∈ pyStrip l) : a ∈ l := by
  unfold pyStrip at h
  obtain ⟨t, ht⟩ := trimRight_pre (l.dropWhile isPySpace)
  have : a ∈ l.dropWhile isPySpace := by
    rw [ht]
    exact List.mem_append_left t h
  exact (List.dropWhile_sublist isPySpace).subset this

theorem pyInt_nonneg {num : Str} {n : Int}
    (hm : ∀ ch ∈ num, ch ≠ '-') (h : pyInt num = some n) : 0 ≤ n := by
  unfold pyInt at h
  cases hs : pyStrip num with
  | nil => simp only [hs] at h; exact absurd h (by simp)
  | cons c rest =>
    simp only [hs] at h
    have hc : c ≠ '-' := hm c (mem_pyStrip (by simp [hs]))
    rw [if_neg hc] at h
    by_cases hp : c = '+'
    · rw [if_pos hp] at h
      rcases Option.map_eq_some'.mp h with ⟨k, hk, he⟩
      rw [← he]
      exact Int.natCast_nonneg k
    · rw [if_neg hp] at h
      rcases Option.map_eq_some'.mp h with ⟨k, hk, he⟩
      rw [← he]
      exact Int.natCast_nonneg k

theorem extract_int_nonneg {t : Str} {n : Int}
    (hm : ∀ ch ∈ t, ch ≠ '-') (h : extract_int t = some n) : 0 ≤ n := by
  unfold extract_int at h
  by_cases he : t = []
  · rw [if_pos he] at h; exact absurd h (by simp)
  · rw [if_neg he] at h
    cases hsr : intSearch t with
    | none => rw [hsr] at h; exact absurd h (by simp)
    | some m =>
      rw [hsr] at h
      refine pyInt_nonneg ?_ h
      intro ch hch
      exact hm ch (intSearch_mem hsr ch (List.mem_of_mem_filter hch))

/-- C5 counterexample: the price text `-5 €` matches the currency
pattern through its `5 €` part, but `extract_int`'s own pattern picks up
the preceding minus sign, so the retained summary's price is the
negative integer -5. -/
theorem claim_C5_counterexample :
    process_card exCardNeg = some ⟨"Property listing".data,
      "https://www.seloger.com/x".data, none, some (-5), []⟩ ∧
    (-5 : Int) < 0 := ⟨by decide, by decide⟩

/-- C5 amended: a present price is the `extract_int` value of the first
card text node matching the currency pattern; it is non-negative
whenever that text contains no minus sign, but a text with a minus sign
immediately before the digit run yields a negative price. -/
theorem claim_C5 (c : Card) (s : ListingSummary) (n : Int)
    (hc : process_card c = some s) (hn : s.price = some n) :
    ∃ t, c.strings.find? priceSearch = some t ∧ extract_int t = some n ∧
      ((∀ ch ∈ t, ch ≠ '-') → 0 ≤ n) := by
  have hp : cardPrice c = some n := by
    unfold process_card at hc
    by_cases hu : cardUrl c = []
    · rw [if_pos hu] at hc; exact absurd hc (by simp)
    · rw [if_neg hu] at hc
      rw [← Option.some.inj hc] at hn
      exact hn
  unfold cardPrice at hp
  cases hf : c.strings.find? priceSearch with
  | none => simp only [hf] at hp; exact absurd hp (by simp)
  | some t =>
    simp only [hf] at hp
    by_cases ht : t = []
    · rw [if_neg (by simp [ht])] at hp
      exact absurd hp (by simp)
    · rw [if_pos ht] at hp
      exact ⟨t, rfl, hp, fun hnm => extract_int_nonneg hnm hp⟩

/-- C5 witness: the amended claim applied at a concrete card with price
text `1 234 €`. -/
theorem claim_C5_witness :
    ∃ t, exCardPos.strings.find? priceSearch = some t ∧
      extract_int t = some 1234 ∧
      ((∀ ch ∈ t, ch ≠ '-') → 0 ≤ (1234 : Int)) :=
  claim_C5 exCardPos
    ⟨"Property listing".data, "https://www.seloger.com/y".data, none,
      some 1234, []⟩
    1234 (by decide) rfl

/-! ### Detail extractor claims -/

/-- C7 counterexample: a detail document missing the agency container
does NOT necessarily have all publisher fields nothing — a page-wide
`tel:` link still populates the phone field. -/
theorem claim_C7_counterexample :
    exDocTel.agencyA = none ∧ exDocTel.agencyB = none ∧
    exDocTel.agencyC = none ∧
    List.lookup "publisher_phone" (parse_listing_page "T".data exDocTel exSum)
      = some (Value.optText (some "0612345678".data)) := by
  refine ⟨rfl, rfl, rfl, by decide⟩

/-- C7 amended: fields are resolved independently with per-field
fallback to the summary.  A document with no agency container AND no
page-wide `tel:`/`mailto:` links yields all publisher fields nothing
(with such links present, phone/email fall back to them), while it still
yields a full 13-key record; a page with no heading gets the summary's
title; a page whose text has no currency-pattern node gets the summary's
price; and the title, description and price entries never depend on the
agency containers or contact links. -/
theorem claim_C7 (ts : Str) (d : DetailDoc) (summary : ListingSummary) :
    (d.agencyA = none → d.agencyB = none → d.agencyC = none →
      d.telHref = none → d.mailHref = none →
      List.lookup "publisher_name" (parse_listing_page ts d summary) =
        some (Value.optText none) ∧
      List.lookup "publisher_phone" (parse_listing_page ts d summary) =
        some (Value.optText none) ∧
      List.lookup "publisher_email" (parse_listing_page ts d summary) =
        some (Value.optText none)) ∧
    (d.h1 = none →
      List.lookup "title" (parse_listing_page ts d summary) =
        some (Value.text summary.title)) ∧
    (d.strings.find? priceSearch = none →
      List.lookup "price" (parse_listing_page ts d summary) =
        some (Value.optInt summary.price)) ∧
    (∀ aA aB aC tel mail,
      List.lookup "title" (parse_listing_page ts
          {d with agencyA := aA, agencyB := aB, agencyC := aC,
                  telHref := tel, mailHref := mail} summary) =
        List.lookup "title" (parse_listing_page ts d summary) ∧
      List.lookup "description" (parse_listing_page ts
          {d with agencyA := aA, agencyB := aB, agencyC := aC,
                  telHref := tel, mailHref := mail} summary) =
        List.lookup "description" (parse_listing_page ts d summary) ∧
      List.lookup "price" (parse_listing_page ts
          {d with agencyA := aA, agencyB := aB, agencyC := aC,
                  telHref := tel, mailHref := mail} summary) =
        List.lookup "price" (parse_listing_page ts d summary)) := by
  refine ⟨?_, ?_, ?_, ?_⟩
  · intro hA hB hC hT hM
    have hag : agencyOf d = none := by
      simp [agencyOf, firstSome, hA, hB, hC]
    refine ⟨?_, ?_, ?_⟩
    · show some (Value.optText (publisherNameOf d)) = some (Value.optText none)
      simp [publisherNameOf, hag]
    · show some (Value.optText (publisherPhoneOf d)) = some (Value.optText none)
      simp [publisherPhoneOf, hag, pyFalsy, hT]
    · show some (Value.optText (publisherEmailOf d)) = some (Value.optText none)
      simp [publisherEmailOf, hag, pyFalsy, hM]
  · intro h1
    show some (Value.text (titleOf d summary)) = some (Value.text summary.title)
    simp [titleOf, h1]
  · intro hp
    show some (Value.optInt (priceOf d summary)) =
      some (Value.optInt summary.price)
    simp [priceOf, hp]
  · intro aA aB aC tel mail
    exact ⟨rfl, rfl, rfl⟩

/-- C7 witness: the amended claim applied at a concrete document with no
agency data, no contact links, no heading and no price text. -/
theorem claim_C7_witness :
    List.lookup "publisher_name" (parse_listing_page "T".data exDoc exSum) =
      some (Value.optText none) ∧
    List.lookup "publisher_phone" (parse_listing_page "T".data exDoc exSum) =
      some (Value.optText none) ∧
    List.lookup "title" (parse_listing_page "T".data exDoc exSum) =
      some (Value.text exSum.title) ∧
    List.lookup "price" (parse_listing_page "T".data exDoc exSum) =
      some (Value.optInt exSum.price) := by
  obtain ⟨ha, hb, hc, -⟩ := claim_C7 "T".data exDoc exSum
  obtain ⟨h1, h2, -⟩ := ha rfl rfl rfl rfl rfl
  exact ⟨h1, h2, hb rfl, hc rfl⟩

/-- C10: every record — shallow (`_summary_to_dict`) or deep
(`_parse_listing_page`) — is a mapping with exactly the thirteen schema
keys in source order; in shallow mode the description is empty text,
nearby_transport the empty sequence, the detail-only optional fields
nothing, the url the summary's url verbatim, and scraped_at is stamped
from the record-creation timestamp (the `utcnow` isoformat passed as
`ts`, suffixed with `Z`). -/
theorem claim_C10 (ts : Str) (s : ListingSummary) (d : DetailDoc)
    (s2 : ListingSummary) :
    (summary_to_dict ts s).map Prod.fst = schemaKeys ∧
    (parse_listing_page ts d s2).map Prod.fst = schemaKeys ∧
    List.lookup "description" (summary_to_dict ts s) =
      some (Value.text []) ∧
    List.lookup "nearby_transport" (summary_to_dict ts s) =
      some (Value.texts []) ∧
    List.lookup "energy_info" (summary_to_dict ts s) =
      some (Value.optText none) ∧
    List.lookup "construction_date" (summary_to_dict ts s) =
      some (Value.optText none) ∧
    List.lookup "publisher_name" (summary_to_dict ts s) =
      some (Value.optText none) ∧
    List.lookup "publisher_email" (summary_to_dict ts s) =
      some (Value.optText none) ∧
    List.lookup "publisher_phone" (summary_to_dict ts s) =
      some (Value.optText none) ∧
    List.lookup "url" (summary_to_dict ts s) = some (Value.text s.url) ∧
    List.lookup "scraped_at" (summary_to_dict ts s) =
      some (Value.text (ts ++ "Z".data)) :=
  ⟨rfl, rfl, rfl, rfl, rfl, rfl, rfl, rfl, rfl, rfl, rfl⟩
